import Mathlib

/-! 403Unlocker-cli: DNS reachability probe, speed evaluation and best-server selection.

A shallow embedding of `internal/dns/function.go` (`CheckAndCacheDNS`, `CheckWithURL`) and of the
helpers of `internal/common/function.go` they call (`FormatDataSize`, `ReadDNSFromFile`,
`DownloadConfigFile`, `AddPathToDir`, `GetTempDir`).

Conventions of the embedding:

* Go `int64` / `int` values are `Int`; the only arithmetic on them is comparison and one
  truncating division, so no wrap-around can occur.
* A Go `map[string]int64` is an association list with distinct keys in insertion order; a
  `range` over the map is a traversal of some permutation of its entries.
* Network, clock and process environment are an explicit record `Env`; the file system is an
  explicit state passed through the functions and returned with every result.
* A returned `error`, a run-time panic and `os.Exit` are the three ways out recorded by `Exit`.
-/

namespace Unlocker

/-! ## `internal/common`: constants -/

/-- ANSI escape `common.Reset`. -/
def Reset : String := "\x1b[0m"
/-- ANSI escape `common.Red`. -/
def Red : String := "\x1b[31m"
/-- ANSI escape `common.Green`. -/
def Green : String := "\x1b[32m"

/-- The constant `common.DNS_CONFIG_FILE`. -/
def DNS_CONFIG_FILE : String := ".config/403unlocker/dns.yml"
/-- The constant `common.CHECKED_DNS_CONFIG_FILE`. -/
def CHECKED_DNS_CONFIG_FILE : String := ".config/403unlocker/checked_dns.yml"
/-- The constant `common.DNS_CONFIG_URL`. -/
def DNS_CONFIG_URL : String :=
  "https://raw.githubusercontent.com/403unlocker/403Unlocker-cli/refs/heads/main/config/dns.yml"

/-! ## `common.FormatDataSize` -/

/-- Go's conversion `float64(n)` of an `int64`: the result is always an integer, returned here
exactly.  Below `2^53` the conversion is exact; above, the magnitude is rounded to 53 significant
bits, ties to even. -/
def float64OfInt (n : Int) : Int :=
  let a := n.natAbs
  if a < 2 ^ 53 then n
  else
    let e := Nat.log2 a - 52
    let q := a / 2 ^ e
    let r := a % 2 ^ e
    let q1 := if 2 ^ e < 2 * r ∨ (2 * r = 2 ^ e ∧ q % 2 = 1) then q + 1 else q
    Int.sign n * ((q1 * 2 ^ e : Nat) : Int)

/-- Two-digit rendering of a number below 100. -/
def pad2 (d : Nat) : String :=
  if d < 10 then "0" ++ toString d else toString d

/-- The rendering `fmt.Sprintf("%.2f", x / unit)` for a non-negative integral float `x` and a
power-of-two `unit` (the quotient is then exact): the hundredths are rounded to nearest, ties to
even, as `strconv` does. -/
def sprintf2f (x unit : Nat) : String :=
  let h := (x * 100) / unit
  let r := (x * 100) % unit
  let h1 := if unit < 2 * r ∨ (2 * r = unit ∧ h % 2 = 1) then h + 1 else h
  toString (h1 / 100) ++ "." ++ pad2 (h1 % 100)

/-- The constant `kb` of `FormatDataSize`. -/
def kb : Int := 1024
/-- The constant `mb` of `FormatDataSize`. -/
def mb : Int := kb * 1024
/-- The constant `gb` of `FormatDataSize`. -/
def gb : Int := mb * 1024

/-- The function `common.FormatDataSize`: the `switch` is tried top to bottom. -/
def FormatDataSize (bytes : Int) : String :=
  if bytes ≥ gb then sprintf2f (float64OfInt bytes).toNat gb.toNat ++ " GB"
  else if bytes ≥ mb then sprintf2f (float64OfInt bytes).toNat mb.toNat ++ " MB"
  else if bytes ≥ kb then sprintf2f (float64OfInt bytes).toNat kb.toNat ++ " KB"
  else toString bytes ++ " Bytes"

/-- Whether `s` ends in `suffix` (Go: `strings.HasSuffix`). -/
def endsWith (s suf : String) : Bool :=
  suf.data.isSuffixOf s.data

/-- Rank of the unit a formatted size ends in: 0 for anything that is not KB, MB or GB. -/
def unitRank (s : String) : Nat :=
  if endsWith s " GB" then 3
  else if endsWith s " MB" then 2
  else if endsWith s " KB" then 1
  else 0

/-! ## `CheckWithURL`: the best-server scan (lines 202-220) -/

/-- One iteration of `for dns, size := range dnsSizeMap`: the state is `(maxDNS, maxSize)`. -/
def scanStep (st : String × Int) (e : String × Int) : String × Int :=
  if e.2 > st.2 then (e.1, e.2) else st

/-- The whole `range` loop over the entries in iteration order, from the zero values
`maxDNS = ""`, `maxSize = 0`. -/
def scanBest (entries : List (String × Int)) : String × Int :=
  entries.foldl scanStep ("", 0)

/-- The outcome of the scan as tested by `if maxDNS != ""`: `some (maxDNS, maxSize)` on the
"Best DNS" branch, `none` on the "No DNS server was able to download any data." branch. -/
def selectBest (entries : List (String × Int)) : Option (String × Int) :=
  let r := scanBest entries
  if r.1 ≠ "" then some r else none

/-- The line printed after the scan (lines 213-220). -/
def bestLine (timeout : Int) (entries : List (String × Int)) : String :=
  match selectBest entries with
  | some (maxDNS, maxSize) =>
    "Best DNS: " ++ Green ++ maxDNS ++ Reset ++ " (" ++ Green
      ++ FormatDataSize (maxSize.tdiv timeout) ++ "/s" ++ Reset ++ ")"
  | none => "No DNS server was able to download any data."

/-! ## `CheckAndCacheDNS`: classification of one probe (lines 75-103) -/

/-- Go's `strings.Split(s, " ")` on the characters of `s`: the pieces between single spaces;
the empty string gives one empty piece. -/
def Split : List Char → List (List Char)
  | [] => [[]]
  | c :: cs =>
    if c = ' ' then [] :: Split cs
    else
      match Split cs with
      | [] => [[c]]
      | p :: ps => (c :: p) :: ps

/-- The value of a decimal digit, as in the loop of `strconv.Atoi` (`ch -= '0'; ch > 9` fails). -/
def digitVal (c : Char) : Option Nat :=
  if '0' ≤ c ∧ c ≤ '9' then some (c.toNat - '0'.toNat) else none

/-- The digit loop `n = n*10 + int(ch)` of `strconv.Atoi`. -/
def parseDigits : List Char → Nat → Option Nat
  | [], acc => some acc
  | c :: cs, acc =>
    match digitVal c with
    | none => none
    | some d => parseDigits cs (acc * 10 + d)

/-- Go's `strconv.Atoi` on a 64-bit platform: an optional sign, then at least one decimal digit
and nothing else; a value outside `int` is a range error.  `none` stands for `err != nil`. -/
def Atoi (s : List Char) : Option Int :=
  let neg := s.head? = some '-'
  let body := if s.head? = some '-' ∨ s.head? = some '+' then s.tail else s
  if body = [] then none
  else
    match parseDigits body 0 with
    | none => none
    | some n =>
      if neg then (if n ≤ 2 ^ 63 then some (-(n : Int)) else none)
      else (if n < 2 ^ 63 then some (n : Int) else none)

/-- The result of `client.Get(url)`: an error, or a response of which only `resp.Status` is
read. -/
inductive GetResult where
  | error : GetResult
  | response (status : String) : GetResult
  deriving DecidableEq

/-- What one probe goroutine decides: whether `dns` is appended to `validDNSList`, and the
colour and text of its table cell. -/
structure Verdict where
  valid : Bool
  colour : String
  label : String
  deriving DecidableEq

/-- The constant `http.StatusOK`. -/
def StatusOK : Int := 200

/-- The body of the probe goroutine after `client.Get` (lines 77-103). -/
def probe : GetResult → Verdict
  | .error => ⟨false, Red, "Error"⟩
  | .response status =>
    let statusParts := Split status.data
    if statusParts.length < 2 then ⟨false, Red, "Invalid"⟩
    else
      match Atoi (statusParts.getD 0 []) with
      | none => ⟨false, Red, "Error"⟩
      | some statusCode =>
        let statusText := String.mk (statusParts.getD 1 [])
        if statusCode = StatusOK then ⟨true, Green, statusText⟩
        else ⟨false, Red, statusText⟩

/-! ## `CheckAndCacheDNS`: aggregation of the probes (lines 66-107) -/

/-- The goroutines launched by `for _, dns := range dnsList`: unit `i` probes `dnsList[i]` and
gets the answer `get i dns` from its own transport. -/
def probeUnits (get : Nat → String → GetResult) (dnsList : List String) :
    List (String × GetResult) :=
  dnsList.enum.map fun p => (p.2, get p.1 p.2)

/-- The effect of one finished goroutine on the shared `validDNSList`; the append is done under
the mutex, so it is atomic. -/
def goroutine (validDNSList : List String) (u : String × GetResult) : List String :=
  if (probe u.2).valid then validDNSList ++ [u.1] else validDNSList

/-- The list read after `wg.Wait()`, when the goroutines reached their critical sections in the
order `completion`. -/
def runProbes (completion : List (String × GetResult)) : List String :=
  completion.foldl goroutine []

/-! ## Process environment and file system -/

/-- A YAML document as viper reads it: top-level keys holding string sequences. -/
abbrev Yaml := List (String × List String)

/-- The content of a file: a YAML document, or data that is not one (a download artifact). -/
inductive File where
  | yaml (doc : Yaml) : File
  | data (size : Int) : File
  deriving DecidableEq

/-- The file system: the files that exist, by resolved path. -/
abbrev Fs := List (String × File)

/-- How a call ends when it does not return normally. -/
inductive Exit where
  | returned (err : String) : Exit
  | panicked (msg : String) : Exit
  | osExit (code : Nat) : Exit
  deriving DecidableEq

/-- A result together with the file system the call leaves behind. -/
abbrev Res (α : Type) := Except Exit α × Fs

/-- Everything outside the program that the two entry points consult. -/
structure Env where
  /-- Whether `runtime.GOOS == "windows"`. -/
  windows : Bool
  /-- The function `os.Getenv`. -/
  getenv : String → String
  /-- The working directory, against which the OS resolves relative paths. -/
  cwd : String
  /-- The value of `time.Now().UnixMilli()`. -/
  unixMilli : Int
  /-- The document served at a URL to `http.Get`, `none` when the request fails. -/
  fetch : String → Option Yaml
  /-- Whether a file can be created or truncated at a resolved path. -/
  writable : String → Bool
  /-- The answer the transport of probe unit `i`, bound to `dns`, gives for `url`. -/
  get : Nat → String → String → GetResult
  /-- The order in which the probe goroutines reach the mutex. -/
  completion : List (String × GetResult) → List (String × GetResult)
  /-- Whether `http.NewRequest("GET", url, nil)` accepts the URL. -/
  buildable : String → Bool
  /-- The value of the `k`-th call of `resp.BytesComplete()` in download attempt `i`. -/
  bytesComplete : Nat → Nat → Int
  /-- The files attempt `i` leaves at (`""`) or below its destination, with their sizes. -/
  artifacts : Nat → List (String × Int)
  /-- The order in which `range` visits the entries of the result map. -/
  iteration : List (String × Int) → List (String × Int)

/-- The function `common.GetHomeDir`. -/
def GetHomeDir (env : Env) : String :=
  if env.windows then env.getenv "USERPROFILE" else env.getenv "HOME"

/-- The function `common.GetTempDir`. -/
def GetTempDir (env : Env) : String :=
  if env.windows then env.getenv "TEMP" else "/tmp"

/-- The function `common.AddPathToDir`. -/
def AddPathToDir (env : Env) (baseDir extraDir : String) : String :=
  if env.windows then baseDir ++ "\\" ++ extraDir else baseDir ++ "/" ++ extraDir

/-- Whether `c` separates path components on this platform. -/
def isSep (windows : Bool) (c : Char) : Bool :=
  c = '/' || (windows && c = '\\')

/-- Whether the OS takes `path` as it is (rooted, or with a drive letter on Windows). -/
def isAbs (windows : Bool) (path : String) : Bool :=
  match path.data with
  | [] => false
  | c :: rest => isSep windows c || (windows && rest.head? = some ':')

/-- The path the OS opens for `path`: relative paths are taken from the working directory. -/
def resolve (env : Env) (path : String) : String :=
  if isAbs env.windows path then path else AddPathToDir env env.cwd path

/-- Whether `path` is `dir` itself or lies below it. -/
def under (windows : Bool) (dir path : String) : Bool :=
  path = dir ||
    (dir.data.isPrefixOf path.data &&
      ((path.data.drop dir.data.length).head?.map (isSep windows)).getD false)

/-- Creating or overwriting the file at `path`. -/
def writeFile (fs : Fs) (path : String) (f : File) : Fs :=
  (path, f) :: fs.filter fun e => e.1 ≠ path

/-- The function `os.RemoveAll`: `path` and everything below it is gone. -/
def RemoveAll (windows : Bool) (fs : Fs) (path : String) : Fs :=
  fs.filter fun e => !under windows path e.1

/-! ## viper -/

/-- ASCII lower-casing: viper keys are case-insensitive. -/
def lower (s : String) : String :=
  String.mk (s.data.map Char.toLower)

/-- A viper's `ReadInConfig` for the config file `path`: the document, or `none` for an error
(no such file, or not YAML). -/
def ReadInConfig (env : Env) (fs : Fs) (path : String) : Option Yaml :=
  match fs.lookup (resolve env path) with
  | some (.yaml doc) => some doc
  | _ => none

/-- A viper's `GetStringSlice(key)` when its only source is the document read from its config
file; a missing key gives the empty slice. -/
def GetStringSlice (doc : Yaml) (key : String) : List String :=
  match doc.find? fun kv => lower kv.1 = lower key with
  | some kv => kv.2
  | none => []

/-- A fresh viper's `Set(key, value)` followed by `WriteConfig()` to the config file `path`:
the file is replaced by the single (lower-cased) key.  `false` stands for `err != nil`. -/
def WriteConfig (env : Env) (fs : Fs) (path key : String) (value : List String) : Bool × Fs :=
  if env.writable (resolve env path) then
    (true, writeFile fs (resolve env path) (.yaml [(lower key, value)]))
  else (false, fs)

/-- A viper's `SafeWriteConfig()` when no config path was ever added: it fails with
"missing configuration for 'configPath'" before touching any file. -/
def SafeWriteConfig (fs : Fs) : Bool × Fs :=
  (false, fs)

/-! ## `internal/common`: config files -/

/-- The function `common.DownloadConfigFile`. -/
def DownloadConfigFile (env : Env) (url path : String) (fs : Fs) : Res Unit :=
  let homeDir := GetHomeDir env
  if homeDir = "" then (.error (.osExit 1), fs)
  else
    let filePath := resolve env (AddPathToDir env homeDir path)
    -- os.MkdirAll, os.Create
    if !env.writable filePath then (.error (.returned "create"), fs)
    else
      let fs1 := writeFile fs filePath (.yaml [])
      match env.fetch url with
      | none => (.error (.returned "get"), fs1)
      | some doc => (.ok (), writeFile fs1 filePath (.yaml doc))

/-- The function `common.ReadDNSFromFile`; it does not write. -/
def ReadDNSFromFile (env : Env) (filename : String) (fs : Fs) : Except Exit (List String) :=
  let homeDir := GetHomeDir env
  if homeDir = "" then .error (.osExit 1)
  else
    let filename := AddPathToDir env homeDir filename
    match ReadInConfig env fs filename with
    | none => .error (.returned "error reading config file")
    | some doc =>
      let dnsServers := GetStringSlice doc "dnsServers"
      if dnsServers.length = 0 then .error (.returned "no DNS servers found in config")
      else .ok dnsServers

/-! ## `dns.CheckAndCacheDNS` -/

/-- Lines 40-54: the DNS config is read from `DNS_CONFIG_FILE`, after one download if the first
read fails. -/
def readDNSConfig (env : Env) (fs : Fs) : Res Yaml :=
  match ReadInConfig env fs DNS_CONFIG_FILE with
  | some doc => (.ok doc, fs)
  | none =>
    match DownloadConfigFile env DNS_CONFIG_URL DNS_CONFIG_FILE fs with
    | (.error (.returned e), fs1) =>
      (.error (.returned ("error downloading DNS config: " ++ e)), fs1)
    | (.error x, fs1) => (.error x, fs1)
    | (.ok _, fs1) =>
      match ReadInConfig env fs1 DNS_CONFIG_FILE with
      | some doc => (.ok doc, fs1)
      | none => (.error (.returned "error reading DNS config"), fs1)

/-- The function `dns.CheckAndCacheDNS`; on success the value is `validDNSList`. -/
def CheckAndCacheDNS (env : Env) (url : String) (fs : Fs) : Res (List String) :=
  match readDNSConfig env fs with
  | (.error x, fs1) => (.error x, fs1)
  | (.ok doc, fs1) =>
    let dnsList := GetStringSlice doc "dnsServers"
    if dnsList.length = 0 then (.error (.returned "no DNS servers found in config"), fs1)
    else
      let validDNSList :=
        runProbes (env.completion (probeUnits (fun i dns => env.get i dns url) dnsList))
      if validDNSList.length > 0 then
        match WriteConfig env fs1 CHECKED_DNS_CONFIG_FILE "validDNSServers" validDNSList with
        | (true, fs2) => (.ok validDNSList, fs2)
        | (false, fs2) =>
          match SafeWriteConfig fs2 with
          | (true, fs3) => (.ok validDNSList, fs3)
          | (false, fs3) => (.error (.returned "error writing cached DNS config"), fs3)
      else (.ok validDNSList, fs1)

/-! ## `dns.CheckWithURL` -/

/-- Lines 131-156: the server list the evaluation runs over. -/
def chooseServers (env : Env) (fileToDownload : String) (check : Bool) (fs : Fs) :
    Res (List String) :=
  let chosen : Res String :=
    if check then
      match CheckAndCacheDNS env fileToDownload fs with
      | (.error x, fs1) => (.error x, fs1)
      | (.ok _, fs1) => (.ok CHECKED_DNS_CONFIG_FILE, fs1)
    else (.ok DNS_CONFIG_FILE, fs)
  match chosen with
  | (.error x, fs1) => (.error x, fs1)
  | (.ok dnsFile, fs1) =>
    match ReadDNSFromFile env dnsFile fs1 with
    | .ok dnsList => (.ok dnsList, fs1)
    | .error (.returned _) =>
      match DownloadConfigFile env DNS_CONFIG_URL DNS_CONFIG_FILE fs1 with
      | (.error (.returned e), fs2) =>
        (.error (.returned ("error downloading DNS config file: " ++ e)), fs2)
      | (.error x, fs2) => (.error x, fs2)
      | (.ok _, fs2) =>
        match ReadDNSFromFile env DNS_CONFIG_FILE fs2 with
        | .ok dnsList => (.ok dnsList, fs2)
        | .error (.returned e) =>
          (.error (.returned ("error reading DNS list from file: " ++ e)), fs2)
        | .error x => (.error x, fs2)
    | .error x => (.error x, fs1)

/-- The message of a nil-pointer dereference. -/
def nilDereference : String :=
  "runtime error: invalid memory address or nil pointer dereference"

/-- A `*grab.Request`: its destination and its URL. -/
structure Request where
  Filename : String
  URL : String
  deriving DecidableEq

/-- The function `grab.NewRequest(dst, urlStr)`: `nil, err` when `http.NewRequest` rejects the URL,
a request for that destination otherwise. -/
def NewRequest (env : Env) (dst urlStr : String) : Option Request :=
  if env.buildable urlStr then some ⟨dst, urlStr⟩ else none

/-- The method `(*grab.Request).WithContext`: it copies `*r`, which for a nil receiver is a
nil-pointer dereference. -/
def WithContext (req : Option Request) : Except Exit Request :=
  match req with
  | some r => .ok r
  | none => .error (.panicked nilDereference)

/-- The file-system effect of `client.Do(req)` in attempt `i`: what it leaves at or below the
destination of the request. -/
def Do (env : Env) (req : Request) (i : Nat) (fs : Fs) : Fs :=
  (env.artifacts i).foldl
    (fun acc a =>
      writeFile acc (if a.1 = "" then req.Filename else AddPathToDir env req.Filename a.1)
        (.data a.2))
    fs

/-- The assignment `m[k] = v` on a Go map. -/
def mapSet (m : List (String × Int)) (k : String) (v : Int) : List (String × Int) :=
  if k ∈ m.map Prod.fst then m.map fun e => if e.1 = k then (k, v) else e
  else m ++ [(k, v)]

/-- The format verb `%-Ns`: left-justified in a field of `n` characters. -/
def padRight (s : String) (n : Nat) : String :=
  s ++ String.mk (List.replicate (n - s.length) ' ')

/-- The state of the evaluation loop: the map and the text written so far. -/
structure LoopState where
  dnsSizeMap : List (String × Int)
  stdout : List String
  stderr : List String
  deriving DecidableEq

/-- The table cell of a server: `speed + "/s"` with `speed` as computed on line 189. -/
def speedCell (bytesComplete : Int) (timeout : Int) : String :=
  FormatDataSize (bytesComplete.tdiv timeout) ++ "/s"

/-- One iteration of the loop of lines 172-196, for the `i`-th server `dns`. -/
def attempt (env : Env) (fileToDownload : String) (timeout : Int) (tempDir : String)
    (i : Nat) (dns : String) (st : LoopState) (fs : Fs) : Res LoopState :=
  let req := NewRequest env tempDir fileToDownload
  let stderr :=
    if req.isNone then st.stderr ++ ["Error creating request for DNS " ++ dns] else st.stderr
  match WithContext req with
  | .error x => (.error x, fs)
  | .ok req =>
    let fs1 := Do env req i fs
    let dnsSizeMap := mapSet st.dnsSizeMap dns (env.bytesComplete i 0)
    -- integer division by zero panics
    if timeout = 0 then (.error (.panicked "runtime error: integer divide by zero"), fs1)
    else
      let speed := speedCell (env.bytesComplete i 1) timeout
      let row :=
        if env.bytesComplete i 2 = 0 then
          "| " ++ padRight dns 18 ++ " | " ++ Red ++ padRight speed 14 ++ Reset ++ " |"
        else "| " ++ padRight dns 18 ++ " | " ++ padRight speed 14 ++ " |"
      (.ok ⟨dnsSizeMap, st.stdout ++ [row], stderr⟩, fs1)

/-- The loop `for _, dns := range dnsList` of lines 172-196, from index `i` on. -/
def evalLoop (env : Env) (fileToDownload : String) (timeout : Int) (tempDir : String) :
    List String → Nat → LoopState → Fs → Res LoopState
  | [], _, st, fs => (.ok st, fs)
  | dns :: rest, i, st, fs =>
    match attempt env fileToDownload timeout tempDir i dns st fs with
    | (.error x, fs1) => (.error x, fs1)
    | (.ok st1, fs1) => evalLoop env fileToDownload timeout tempDir rest (i + 1) st1 fs1

/-- The scratch path of a run (lines 168-169). -/
def scratchPath (env : Env) : String :=
  AddPathToDir env (GetTempDir env) (toString env.unixMilli)

/-- What a completed `CheckWithURL` has produced. -/
structure Report where
  dnsSizeMap : List (String × Int)
  stdout : List String
  best : String
  deriving DecidableEq

/-- Lines 158-223: the evaluation of `dnsList`, the selection and the cleanup. -/
def evaluate (env : Env) (fileToDownload : String) (timeout : Int) (dnsList : List String)
    (fs : Fs) : Res Report :=
  let tempDir := scratchPath env
  match evalLoop env fileToDownload timeout tempDir dnsList 0 ⟨[], [], []⟩ fs with
  | (.error x, fs1) => (.error x, fs1)
  | (.ok st, fs1) =>
    let best := bestLine timeout (env.iteration st.dnsSizeMap)
    (.ok ⟨st.dnsSizeMap, st.stdout, best⟩, RemoveAll env.windows fs1 tempDir)

/-- The function `dns.CheckWithURL`. -/
def CheckWithURL (env : Env) (commandLintFirstArg : String) (check : Bool) (timeout : Int)
    (fs : Fs) : Res Report :=
  let fileToDownload := commandLintFirstArg
  match chooseServers env fileToDownload check fs with
  | (.error x, fs1) => (.error x, fs1)
  | (.ok dnsList, fs1) => evaluate env fileToDownload timeout dnsList fs1

/-! ## A concrete process, for evaluating the functions -/

/-- A Linux process started in its home directory.  The transport bound to 1.1.1.1 answers
`200 OK` and every other one fails; the first download attempt of a run transfers 1000 bytes and
the later ones 4000, each leaving one file at its destination; `http.NewRequest` rejects the URL
`://example.com` (missing protocol scheme); the clock reads 17 ms. -/
def sampleEnv : Env where
  windows := false
  getenv := fun v => if v = "HOME" then "/home/u" else ""
  cwd := "/home/u"
  unixMilli := 17
  fetch := fun _ => some [("dnsServers", ["1.1.1.1", "8.8.8.8"])]
  writable := fun _ => true
  get := fun _ dns _ => if dns = "1.1.1.1" then .response "200 OK" else .error
  completion := id
  buildable := fun u => u ≠ "://example.com"
  bytesComplete := fun i _ => if i = 0 then 1000 else 4000
  artifacts := fun _ => [("", 10)]
  iteration := id

/-- A file system holding the DNS config with two servers, and nothing else. -/
def sampleFs : Fs :=
  [("/home/u/.config/403unlocker/dns.yml", .yaml [("dnsServers", ["1.1.1.1", "8.8.8.8"])])]

/-! ## The best-server scan -/

/-- Entries that do not exceed the running maximum leave the scan state alone. -/
theorem foldl_scanStep_of_le (l : List (String × Int)) (st : String × Int)
    (h : ∀ e ∈ l, e.2 ≤ st.2) : l.foldl scanStep st = st := by
  induction l with
  | nil => rfl
  | cons e l ih =>
    have he : ¬ e.2 > st.2 := not_lt.mpr (h e (List.mem_cons_self e l))
    simp only [List.foldl_cons, scanStep, if_neg he]
    exact ih fun x hx => h x (List.mem_cons_of_mem e hx)

/-- The invariant of the scan: either nothing exceeded the initial maximum, or the final state is
the first entry that reaches the overall maximum. -/
theorem foldl_scanStep_spec (l : List (String × Int)) (st : String × Int) :
    (l.foldl scanStep st = st ∧ ∀ e ∈ l, e.2 ≤ st.2) ∨
    ∃ pre post, l = pre ++ l.foldl scanStep st :: post ∧ st.2 < (l.foldl scanStep st).2 ∧
      (∀ e ∈ pre, e.2 < (l.foldl scanStep st).2) ∧
      ∀ e ∈ post, e.2 ≤ (l.foldl scanStep st).2 := by
  induction l generalizing st with
  | nil => left; simp
  | cons e l ih =>
    by_cases he : e.2 > st.2
    · have hstep : scanStep st e = e := by simp [scanStep, he]
      right
      simp only [List.foldl_cons, hstep]
      rcases ih e with ⟨heq, hle⟩ | ⟨pre, post, hl, hlt, hpre, hpost⟩
      · refine ⟨[], l, ?_, ?_, ?_, ?_⟩
        · simp [heq]
        · rw [heq]; exact he
        · simp
        · rw [heq]; exact hle
      · refine ⟨e :: pre, post, ?_, lt_trans he hlt, ?_, hpost⟩
        · rw [List.cons_append, ← hl]
        · intro x hx
          rcases List.mem_cons.mp hx with rfl | hx
          · exact hlt
          · exact hpre x hx
    · have hstep : scanStep st e = st := by simp [scanStep, he]
      simp only [List.foldl_cons, hstep]
      rcases ih st with ⟨heq, hle⟩ | ⟨pre, post, hl, hlt, hpre, hpost⟩
      · left
        refine ⟨heq, fun x hx => ?_⟩
        rcases List.mem_cons.mp hx with rfl | hx
        · exact not_lt.mp he
        · exact hle x hx
      · right
        refine ⟨e :: pre, post, ?_, hlt, ?_, hpost⟩
        · rw [List.cons_append, ← hl]
        · intro x hx
          rcases List.mem_cons.mp hx with rfl | hx
          · exact lt_of_le_of_lt (not_lt.mp he) hlt
          · exact hpre x hx

/-- C1: whenever the scan of a result map `m`, visited in any order `order`, reports a best
server, that server is an entry of `m`, its byte count is positive and at least every entry's
count, and every entry visited before it has a strictly smaller count (it is the first maximal
entry in the iteration order). -/
theorem selectBest_is_first_maximum (m order : List (String × Int)) (hperm : order.Perm m)
    (dns : String) (size : Int) (h : selectBest order = some (dns, size)) :
    (dns, size) ∈ m ∧ 0 < size ∧ (∀ e ∈ m, e.2 ≤ size) ∧
      ∃ pre post, order = pre ++ (dns, size) :: post ∧ ∀ e ∈ pre, e.2 < size := by
  unfold selectBest at h
  by_cases hne : (scanBest order).1 ≠ ""
  · simp only [if_pos hne, Option.some.injEq] at h
    unfold scanBest at h hne
    rcases foldl_scanStep_spec order ("", 0) with ⟨heq, -⟩ | ⟨pre, post, hl, hlt, hpre, hpost⟩
    · rw [heq] at hne; exact absurd rfl hne
    · rw [h] at hl hlt hpre hpost
      have hmem : (dns, size) ∈ order := by rw [hl]; simp
      refine ⟨hperm.mem_iff.mp hmem, hlt, ?_, pre, post, hl, hpre⟩
      intro e he
      have he2 : e ∈ order := hperm.mem_iff.mpr he
      rw [hl] at he2
      rcases List.mem_append.mp he2 with hp | hp
      · exact le_of_lt (hpre e hp)
      · rcases List.mem_cons.mp hp with rfl | hp
        · exact le_refl _
        · exact hpost e hp
  · simp [if_neg hne] at h

/-- C1 at the map of the end-to-end scenario, visited second entry first. -/
theorem selectBest_is_first_maximum_witness :
    ("b", (4000 : Int)) ∈ [("a", (1000 : Int)), ("b", 4000)] ∧ (0 : Int) < 4000 ∧
      (∀ e ∈ [("a", (1000 : Int)), ("b", 4000)], e.2 ≤ 4000) ∧
      ∃ pre post, [("b", (4000 : Int)), ("a", 1000)] = pre ++ ("b", 4000) :: post ∧
        ∀ e ∈ pre, e.2 < 4000 :=
  selectBest_is_first_maximum [("a", 1000), ("b", 4000)] [("b", 4000), ("a", 1000)]
    (List.Perm.swap _ _ _) "b" 4000 (by decide)

/-- C2: when the result map is empty or every byte count in it is 0, the scan reports no best
server in whatever order the entries are visited, and the line printed is the "No DNS server was
able to download any data." one. -/
theorem selectBest_none_of_all_zero (m order : List (String × Int)) (hperm : order.Perm m)
    (timeout : Int) (hzero : ∀ e ∈ m, e.2 = 0) :
    selectBest order = none ∧
      bestLine timeout order = "No DNS server was able to download any data." := by
  have hscan : scanBest order = ("", 0) := by
    unfold scanBest
    apply foldl_scanStep_of_le
    intro e he
    exact le_of_eq (hzero e (hperm.mem_iff.mp he))
  have hsel : selectBest order = none := by simp [selectBest, hscan]
  exact ⟨hsel, by simp [bestLine, hsel]⟩

/-- C2 at a two-entry map without any transfer. -/
theorem selectBest_none_of_all_zero_witness :
    selectBest [("8.8.8.8", 0), ("1.1.1.1", 0)] = none ∧
      bestLine 5 [("8.8.8.8", 0), ("1.1.1.1", 0)] =
        "No DNS server was able to download any data." :=
  selectBest_none_of_all_zero [("1.1.1.1", 0), ("8.8.8.8", 0)] [("8.8.8.8", 0), ("1.1.1.1", 0)]
    (List.Perm.swap _ _ _) 5 (by decide)

/-- C3, refuted as stated: a map whose only entry with a positive count has the empty string as
its address is reported as "no server downloaded any data", because the scan tells "found" from
"not found" by `maxDNS != ""`. -/
theorem selectBest_empty_address_not_found :
    selectBest [("", 4000), ("8.8.8.8", 0)] = none ∧
      bestLine 2 [("", 4000), ("8.8.8.8", 0)] =
        "No DNS server was able to download any data." := by
  decide

/-- C3, amended: when exactly one entry of the visited map has a positive byte count, all others
having 0, and the address of that entry is not the empty string, the scan reports exactly that
entry; in particular both orders of the map a:1000, b:4000 give b with 4000. -/
theorem selectBest_single_nonzero (pre post : List (String × Int)) (dns : String) (size : Int)
    (hpre : ∀ e ∈ pre, e.2 = 0) (hpost : ∀ e ∈ post, e.2 = 0) (hsize : 0 < size)
    (hdns : dns ≠ "") :
    selectBest (pre ++ (dns, size) :: post) = some (dns, size) ∧
      selectBest [("a", 1000), ("b", 4000)] = some ("b", 4000) ∧
      selectBest [("b", 4000), ("a", 1000)] = some ("b", 4000) := by
  refine ⟨?_, by decide, by decide⟩
  have h1 : pre.foldl scanStep ("", 0) = ("", 0) :=
    foldl_scanStep_of_le pre ("", 0) fun e he => le_of_eq (hpre e he)
  have h2 : scanStep ("", 0) (dns, size) = (dns, size) := by simp [scanStep, hsize]
  have h3 : post.foldl scanStep (dns, size) = (dns, size) :=
    foldl_scanStep_of_le post (dns, size) fun e he => by
      rw [hpost e he]; exact le_of_lt hsize
  have hscan : scanBest (pre ++ (dns, size) :: post) = (dns, size) := by
    simp only [scanBest, List.foldl_append, List.foldl_cons, h1, h2, h3]
  simp [selectBest, hscan, hdns]

/-- C3 amended, at a map with one live server between two dead ones. -/
theorem selectBest_single_nonzero_witness :
    selectBest ([("a", 0)] ++ ("b", 4000) :: [("c", 0)]) = some ("b", 4000) ∧
      selectBest [("a", 1000), ("b", 4000)] = some ("b", 4000) ∧
      selectBest [("b", 4000), ("a", 1000)] = some ("b", 4000) :=
  selectBest_single_nonzero [("a", 0)] [("c", 0)] "b" 4000 (by decide) (by decide) (by decide)
    (by decide)

/-! ## Probe classification -/

/-- The result of `strings.Split` is never empty. -/
theorem Split_ne_nil (s : List Char) : Split s ≠ [] := by
  cases s with
  | nil => simp [Split]
  | cons c cs =>
    unfold Split
    by_cases hc : c = ' '
    · simp [hc]
    · simp only [if_neg hc]
      cases Split cs <;> simp

/-- A status line without a space is a single piece. -/
theorem Split_of_no_space (s : List Char) (h : ' ' ∉ s) : Split s = [s] := by
  induction s with
  | nil => rfl
  | cons c cs ih =>
    have hc : c ≠ ' ' := fun e => h (by simp [e])
    have hcs : ' ' ∉ cs := fun e => h (List.mem_cons_of_mem c e)
    simp [Split, hc, ih hcs]

/-- The first piece is the text before the first space. -/
theorem Split_at_first_space (code reason : List Char) (h : ' ' ∉ code) :
    Split (code ++ ' ' :: reason) = code :: Split reason := by
  induction code with
  | nil => simp [Split]
  | cons c cs ih =>
    have hc : c ≠ ' ' := fun e => h (by simp [e])
    have hcs : ' ' ∉ cs := fun e => h (List.mem_cons_of_mem c e)
    simp [Split, hc, ih hcs]

/-- Every text either has no space or splits at its first space. -/
theorem first_space_cases (s : List Char) :
    ' ' ∉ s ∨ ∃ code reason, s = code ++ ' ' :: reason ∧ ' ' ∉ code := by
  induction s with
  | nil => left; simp
  | cons c cs ih =>
    by_cases hc : c = ' '
    · right; exact ⟨[], cs, by simp [hc], by simp⟩
    · rcases ih with h | ⟨code, reason, hs, hcode⟩
      · left
        intro hmem
        rcases List.mem_cons.mp hmem with e | e
        · exact hc e.symm
        · exact h e
      · right
        refine ⟨c :: code, reason, by simp [hs], ?_⟩
        intro hmem
        rcases List.mem_cons.mp hmem with e | e
        · exact hc e.symm
        · exact hcode e

/-- The verdict on a response whose status line splits at a first space. -/
theorem probe_valid_of_split (code reason : List Char) (h : ' ' ∉ code) :
    (probe (.response (String.mk (code ++ ' ' :: reason)))).valid = true ↔
      Atoi code = some 200 := by
  have hlen : ¬ (code :: Split reason).length < 2 := by
    have := Split_ne_nil reason
    cases hs : Split reason with
    | nil => exact absurd hs this
    | cons p ps => simp
  simp only [probe, Split_at_first_space code reason h, if_neg hlen, List.getD_cons_zero]
  cases hA : Atoi code with
  | none => simp
  | some n =>
    by_cases hn : n = StatusOK
    · simp [hn, StatusOK]
    · simp only [if_neg hn]
      simp only [StatusOK] at hn
      simp [hn]

/-- C6, refuted as stated: a successful response whose status line is the bare code `200`,
with no reason text after it, is shown as "Invalid" and not appended to the valid list, although
its code parses to 200. -/
theorem probe_bare_200_invalid :
    Atoi "200".data = some 200 ∧
      probe (.response "200") = ⟨false, Red, "Invalid"⟩ := by
  decide

/-- C6, amended: a probe is classified reachable exactly when the request returned a response,
the status line contains a space, and the text before the first space is accepted by `Atoi` with
value 200; whatever follows that space, even nothing, does not matter.  A request error, another
code, an unparsable code or a status line without any space is unreachable. -/
theorem probe_valid_iff (r : GetResult) :
    (probe r).valid = true ↔
      ∃ code reason : List Char,
        r = .response (String.mk (code ++ ' ' :: reason)) ∧ ' ' ∉ code ∧
          Atoi code = some 200 := by
  constructor
  · intro h
    cases r with
    | error => simp [probe] at h
    | response status =>
      rcases first_space_cases status.data with hno | ⟨code, reason, hs, hcode⟩
      · simp [probe, Split_of_no_space status.data hno] at h
      · have hst : status = String.mk (code ++ ' ' :: reason) := by
          rw [← hs]
        rw [hst] at h
        exact ⟨code, reason, by rw [hst], hcode, (probe_valid_of_split code reason hcode).mp h⟩
  · rintro ⟨code, reason, rfl, hcode, hA⟩
    exact (probe_valid_of_split code reason hcode).mpr hA

/-! ## Probe aggregation -/

/-- The shared list after a batch of goroutines: what was there, then the valid ones in their
order of completion. -/
theorem foldl_goroutine (l : List (String × GetResult)) (acc : List String) :
    l.foldl goroutine acc = acc ++ (l.filter fun u => (probe u.2).valid).map Prod.fst := by
  induction l generalizing acc with
  | nil => simp
  | cons u l ih =>
    by_cases hv : (probe u.2).valid = true
    · simp [List.foldl_cons, goroutine, hv, ih]
    · simp [List.foldl_cons, goroutine, hv, ih]

/-- The units are the input servers, one each, in input order. -/
theorem probeUnits_map_fst (get : Nat → String → GetResult) (dnsList : List String) :
    (probeUnits get dnsList).map Prod.fst = dnsList := by
  simp [probeUnits, List.map_map, Function.comp_def, List.enum_map_snd]

/-- C7: for every server list, every assignment of answers to the probe units and every order
of completion, the valid list read after the barrier is a permutation of the servers of the
units classified reachable (same multiplicities), contains only input addresses, and is empty for
an empty input. -/
theorem runProbes_perm_reachable (get : Nat → String → GetResult) (dnsList : List String)
    (completion : List (String × GetResult))
    (hperm : completion.Perm (probeUnits get dnsList)) :
    (runProbes completion).Perm
        (((probeUnits get dnsList).filter fun u => (probe u.2).valid).map Prod.fst) ∧
      (∀ a ∈ runProbes completion, a ∈ dnsList) ∧
      (dnsList = [] → runProbes completion = []) := by
  have hrun : runProbes completion =
      (completion.filter fun u => (probe u.2).valid).map Prod.fst := by
    simp [runProbes, foldl_goroutine]
  refine ⟨?_, ?_, ?_⟩
  · rw [hrun]
    exact (hperm.filter _).map _
  · intro a ha
    rw [hrun] at ha
    rcases List.mem_map.mp ha with ⟨u, hu, rfl⟩
    have hu2 : u ∈ probeUnits get dnsList := hperm.mem_iff.mp (List.mem_of_mem_filter hu)
    rw [← probeUnits_map_fst get dnsList]
    exact List.mem_map_of_mem _ hu2
  · intro hnil
    subst hnil
    have : completion = [] := List.Perm.eq_nil (by simpa [probeUnits] using hperm)
    simp [this, runProbes]

/-- C7 at the end-to-end scenario, with the failing unit finishing first. -/
theorem runProbes_perm_reachable_witness :
    runProbes [("8.8.8.8", .error), ("1.1.1.1", .response "200 OK")] = ["1.1.1.1"] ∧
    (runProbes [("8.8.8.8", .error), ("1.1.1.1", .response "200 OK")]).Perm
        (((probeUnits (fun i _ => if i = 0 then .response "200 OK" else .error)
          ["1.1.1.1", "8.8.8.8"]).filter fun u => (probe u.2).valid).map Prod.fst) ∧
      (∀ a ∈ runProbes [("8.8.8.8", .error), ("1.1.1.1", .response "200 OK")],
        a ∈ ["1.1.1.1", "8.8.8.8"]) ∧
      (["1.1.1.1", "8.8.8.8"] = [] →
        runProbes [("8.8.8.8", .error), ("1.1.1.1", .response "200 OK")] = []) :=
  ⟨by decide,
    runProbes_perm_reachable (fun i _ => if i = 0 then .response "200 OK" else .error)
      ["1.1.1.1", "8.8.8.8"] [("8.8.8.8", .error), ("1.1.1.1", .response "200 OK")]
      (List.Perm.swap _ _ _)⟩

/-! ## Throughput display -/

/-- Appending a unit at least as long as the suffix asked for decides the test on the unit. -/
theorem endsWith_append (x s suf : String) (h : suf.data.length ≤ s.data.length) :
    endsWith (x ++ s) suf = endsWith s suf := by
  unfold endsWith
  rw [Bool.eq_iff_iff, List.isSuffixOf_iff_suffix, List.isSuffixOf_iff_suffix,
    String.data_append]
  constructor
  · intro hs
    exact List.suffix_of_suffix_length_le hs (List.suffix_append _ _) h
  · intro hs
    exact hs.trans (List.suffix_append _ _)

/-- The unit of a formatted size is decided by the integer thresholds alone. -/
theorem unitRank_FormatDataSize (n : Int) :
    unitRank (FormatDataSize n) =
      if n ≥ gb then 3 else if n ≥ mb then 2 else if n ≥ kb then 1 else 0 := by
  unfold FormatDataSize
  by_cases h3 : n ≥ gb
  · simp only [if_pos h3, unitRank]
    rw [endsWith_append _ " GB" " GB" (by decide)]
    have e : endsWith " GB" " GB" = true := by decide
    rw [if_pos e]
  · by_cases h2 : n ≥ mb
    · simp only [if_neg h3, if_pos h2, unitRank]
      rw [endsWith_append _ " MB" " GB" (by decide), endsWith_append _ " MB" " MB" (by decide)]
      have e1 : ¬ endsWith " MB" " GB" = true := by decide
      have e2 : endsWith " MB" " MB" = true := by decide
      rw [if_neg e1, if_pos e2]
    · by_cases h1 : n ≥ kb
      · simp only [if_neg h3, if_neg h2, if_pos h1, unitRank]
        rw [endsWith_append _ " KB" " GB" (by decide), endsWith_append _ " KB" " MB" (by decide),
          endsWith_append _ " KB" " KB" (by decide)]
        decide
      · simp only [if_neg h3, if_neg h2, if_neg h1, unitRank]
        rw [endsWith_append _ " Bytes" " GB" (by decide),
          endsWith_append _ " Bytes" " MB" (by decide),
          endsWith_append _ " Bytes" " KB" (by decide)]
        decide

/-! ## The evaluation loop -/

/-- Assigning to a key does not change the first components of the old entries. -/
theorem mapSet_keys (m : List (String × Int)) (k : String) (v : Int) :
    (mapSet m k v).map Prod.fst =
      if k ∈ m.map Prod.fst then m.map Prod.fst else m.map Prod.fst ++ [k] := by
  unfold mapSet
  by_cases hk : k ∈ m.map Prod.fst
  · simp only [if_pos hk, List.map_map]
    apply List.map_congr_left
    intro e _
    by_cases he : e.1 = k
    · simp [he]
    · simp [he]
  · simp [if_neg hk]

/-- A map stays a map: assignment never repeats a key. -/
theorem mapSet_nodup (m : List (String × Int)) (k : String) (v : Int)
    (h : (m.map Prod.fst).Nodup) : ((mapSet m k v).map Prod.fst).Nodup := by
  rw [mapSet_keys]
  by_cases hk : k ∈ m.map Prod.fst
  · rw [if_pos hk]; exact h
  · rw [if_neg hk]
    exact List.Nodup.append h (List.nodup_singleton k) (by simpa using hk)

/-- The entries after `m[k] = v`: the new one for `k`, the old ones for the other keys. -/
theorem mem_mapSet (m : List (String × Int)) (k : String) (v : Int) (a : String) (x : Int) :
    (a, x) ∈ mapSet m k v ↔ (a = k ∧ x = v) ∨ (a ≠ k ∧ (a, x) ∈ m) := by
  unfold mapSet
  by_cases hk : k ∈ m.map Prod.fst
  · rw [if_pos hk]
    constructor
    · intro h
      rcases List.mem_map.mp h with ⟨e, he, heq⟩
      by_cases hek : e.1 = k
      · rw [if_pos hek] at heq
        left
        exact ⟨(congrArg Prod.fst heq).symm, (congrArg Prod.snd heq).symm⟩
      · rw [if_neg hek] at heq
        right
        subst heq
        exact ⟨hek, he⟩
    · rintro (⟨rfl, rfl⟩ | ⟨hne, hmem⟩)
      · rcases List.mem_map.mp hk with ⟨e, he, hek⟩
        exact List.mem_map.mpr ⟨e, he, by simp [hek]⟩
      · exact List.mem_map.mpr ⟨(a, x), hmem, by simp [hne]⟩
  · rw [if_neg hk]
    constructor
    · intro h
      rcases List.mem_append.mp h with h1 | h1
      · right
        refine ⟨?_, h1⟩
        intro hak
        exact hk (List.mem_map.mpr ⟨(a, x), h1, hak⟩)
      · left
        simpa using h1
    · rintro (⟨rfl, rfl⟩ | ⟨_, hmem⟩)
      · simp
      · exact List.mem_append_left _ hmem

/-- An attempt whose request can be built, under a non-zero timeout, records the first reading
of `BytesComplete` for its server and goes on. -/
theorem attempt_ok (env : Env) (url : String) (timeout : Int) (tempDir : String) (i : Nat)
    (dns : String) (st : LoopState) (fs : Fs) (hb : env.buildable url = true)
    (ht : timeout ≠ 0) :
    ∃ st1, attempt env url timeout tempDir i dns st fs =
        (.ok st1, Do env ⟨tempDir, url⟩ i fs) ∧
      st1.dnsSizeMap = mapSet st.dnsSizeMap dns (env.bytesComplete i 0) := by
  simp [attempt, NewRequest, hb, WithContext, ht]

/-- The loop invariant: after the servers `done`, the map has one entry per address seen, holding
the reading of the last attempt made for it; the loop over `rest` keeps it and returns. -/
theorem evalLoop_records (env : Env) (url : String) (timeout : Int) (tempDir : String)
    (hb : env.buildable url = true) (ht : timeout ≠ 0) (rest : List String) :
    ∀ (done : List String) (st : LoopState) (fs : Fs),
      (st.dnsSizeMap.map Prod.fst).Nodup →
      (∀ a x, (a, x) ∈ st.dnsSizeMap ↔
        ∃ i, done[i]? = some a ∧ x = env.bytesComplete i 0 ∧
          ∀ j, i < j → done[j]? ≠ some a) →
      ∃ st1 fs1, evalLoop env url timeout tempDir rest done.length st fs = (.ok st1, fs1) ∧
        (st1.dnsSizeMap.map Prod.fst).Nodup ∧
        ∀ a x, (a, x) ∈ st1.dnsSizeMap ↔
          ∃ i, (done ++ rest)[i]? = some a ∧ x = env.bytesComplete i 0 ∧
            ∀ j, i < j → (done ++ rest)[j]? ≠ some a := by
  induction rest with
  | nil =>
    intro done st fs hnd hrec
    exact ⟨st, fs, rfl, hnd, by simpa using hrec⟩
  | cons dns rest ih =>
    intro done st fs hnd hrec
    obtain ⟨st1, hatt, hmap⟩ := attempt_ok env url timeout tempDir done.length dns st fs hb ht
    have hnd1 : (st1.dnsSizeMap.map Prod.fst).Nodup := by
      rw [hmap]; exact mapSet_nodup _ _ _ hnd
    have hrec1 : ∀ a x, (a, x) ∈ st1.dnsSizeMap ↔
        ∃ i, (done ++ [dns])[i]? = some a ∧ x = env.bytesComplete i 0 ∧
          ∀ j, i < j → (done ++ [dns])[j]? ≠ some a := by
      intro a x
      rw [hmap, mem_mapSet, hrec]
      constructor
      · rintro (⟨rfl, rfl⟩ | ⟨hne, i, hi, hx, hlast⟩)
        · refine ⟨done.length, by simp, rfl, ?_⟩
          intro j hj
          rw [List.getElem?_eq_none (by simp; omega)]
          simp
        · have hil : i < done.length := by
            by_contra hcon
            rw [List.getElem?_eq_none (by omega)] at hi
            exact absurd hi (by simp)
          refine ⟨i, by rw [List.getElem?_append_left hil]; exact hi, hx, ?_⟩
          intro j hj
          by_cases hjl : j < done.length
          · rw [List.getElem?_append_left hjl]; exact hlast j hj
          · rw [List.getElem?_append_right (by omega)]
            by_cases hj0 : j - done.length = 0
            · rw [hj0]
              simpa using fun h : dns = a => hne h.symm
            · rw [List.getElem?_eq_none (by simp; omega)]
              simp
      · rintro ⟨i, hi, hx, hlast⟩
        by_cases hil : i < done.length
        · right
          rw [List.getElem?_append_left hil] at hi
          have hne : a ≠ dns := by
            intro h
            have := hlast done.length hil
            rw [List.getElem?_append_right (le_refl _)] at this
            simp [h] at this
          refine ⟨hne, i, hi, hx, ?_⟩
          intro j hj
          by_cases hjl : j < done.length
          · have := hlast j hj
            rwa [List.getElem?_append_left hjl] at this
          · rw [List.getElem?_eq_none (by omega)]
            simp
        · left
          rw [List.getElem?_append_right (by omega)] at hi
          by_cases hi0 : i - done.length = 0
          · rw [hi0] at hi
            have hid : i = done.length := by omega
            subst hid
            simp at hi
            exact ⟨hi.symm, hx⟩
          · rw [List.getElem?_eq_none (by simp; omega)] at hi
            exact absurd hi (by simp)
    obtain ⟨st2, fs2, hloop, hnd2, hrec2⟩ :=
      ih (done ++ [dns]) st1 (Do env ⟨tempDir, url⟩ done.length fs) hnd1 hrec1
    refine ⟨st2, fs2, ?_, hnd2, ?_⟩
    · simp only [evalLoop, hatt]
      simpa using hloop
    · simpa using hrec2

/-- Every address of a list has a last position. -/
theorem exists_last_index (l : List String) (a : String) (h : a ∈ l) :
    ∃ i : Nat, l[i]? = some a ∧ ∀ j : Nat, i < j → l[j]? ≠ some a := by
  induction l with
  | nil => simp at h
  | cons b l ih =>
    by_cases hl : a ∈ l
    · obtain ⟨i, hi, hlast⟩ := ih hl
      refine ⟨i + 1, by simpa using hi, ?_⟩
      intro j hj
      obtain ⟨k, rfl⟩ : ∃ k, j = k + 1 := ⟨j - 1, by omega⟩
      rw [List.getElem?_cons_succ]
      exact hlast k (by omega)
    · have hab : a = b := by
        rcases List.mem_cons.mp h with e | e
        · exact e
        · exact absurd e hl
      refine ⟨0, by simp [hab], ?_⟩
      intro j hj hget
      obtain ⟨k, rfl⟩ : ∃ k, j = k + 1 := ⟨j - 1, by omega⟩
      rw [List.getElem?_cons_succ] at hget
      exact hl (List.getElem?_mem hget)

/-- C4, refuted as stated: a server list naming the same address twice gives two attempts and
two table rows but one map entry, which holds the second attempt's byte count; the first
attempt's 1000 bytes are not in the map. -/
theorem evalLoop_duplicate_address_one_entry :
    (evalLoop sampleEnv "https://example.com" 2 "/tmp/17" ["8.8.8.8", "8.8.8.8"] 0
        ⟨[], [], []⟩ []).1.toOption.map (fun st => (st.dnsSizeMap, st.stdout.length)) =
      some ([("8.8.8.8", 4000)], 2) ∧
    sampleEnv.bytesComplete 0 0 = 1000 ∧ sampleEnv.bytesComplete 1 0 = 4000 := by
  refine ⟨by rfl, by decide, by decide⟩

/-- C4, amended: when the download request can be built and the timeout is not zero, the loop
returns, and its map has exactly one entry per distinct input address: the keys are the input
addresses without repetition, their number is the number of distinct addresses (the number of
servers when none is repeated), each value is the first `BytesComplete` reading of the last
attempt made for that address, values are non-negative when the readings are, and all are 0 when
every attempt transfers nothing. -/
theorem evalLoop_one_entry_per_address (env : Env) (url : String) (timeout : Int)
    (tempDir : String) (servers : List String) (fs : Fs) (hb : env.buildable url = true)
    (ht : timeout ≠ 0) :
    ∃ st fs1, evalLoop env url timeout tempDir servers 0 ⟨[], [], []⟩ fs = (.ok st, fs1) ∧
      (st.dnsSizeMap.map Prod.fst).Nodup ∧
      (∀ a, a ∈ st.dnsSizeMap.map Prod.fst ↔ a ∈ servers) ∧
      st.dnsSizeMap.length = servers.dedup.length ∧
      (servers.Nodup → st.dnsSizeMap.length = servers.length) ∧
      (∀ a x, (a, x) ∈ st.dnsSizeMap ↔
        ∃ i, servers[i]? = some a ∧ x = env.bytesComplete i 0 ∧
          ∀ j, i < j → servers[j]? ≠ some a) ∧
      ((∀ i, 0 ≤ env.bytesComplete i 0) → ∀ e ∈ st.dnsSizeMap, 0 ≤ e.2) ∧
      ((∀ i, env.bytesComplete i 0 = 0) → ∀ e ∈ st.dnsSizeMap, e.2 = 0) := by
  obtain ⟨st, fs1, hloop, hnd, hrec⟩ :=
    evalLoop_records env url timeout tempDir hb ht servers [] ⟨[], [], []⟩ fs
      (by simp) (by simp)
  simp only [List.length_nil, List.nil_append] at hloop hrec
  have hkeys : ∀ a, a ∈ st.dnsSizeMap.map Prod.fst ↔ a ∈ servers := by
    intro a
    constructor
    · intro h
      rcases List.mem_map.mp h with ⟨⟨a1, x⟩, he, rfl⟩
      obtain ⟨i, hi, -, -⟩ := (hrec a1 x).mp he
      exact List.getElem?_mem hi
    · intro h
      obtain ⟨i, hi, hlast⟩ := exists_last_index servers a h
      exact List.mem_map.mpr ⟨(a, env.bytesComplete i 0), (hrec _ _).mpr ⟨i, hi, rfl, hlast⟩, rfl⟩
  have hlen : st.dnsSizeMap.length = servers.dedup.length := by
    have hp : (st.dnsSizeMap.map Prod.fst).Perm servers.dedup :=
      (List.perm_ext_iff_of_nodup hnd (List.nodup_dedup servers)).mpr fun a => by
        rw [hkeys, List.mem_dedup]
    simpa using hp.length_eq
  refine ⟨st, fs1, hloop, hnd, hkeys, hlen, ?_, hrec, ?_, ?_⟩
  · intro hs
    rw [hlen, hs.dedup]
  · intro h0 e he
    obtain ⟨i, -, hx, -⟩ := (hrec e.1 e.2).mp he
    rw [hx]; exact h0 i
  · intro h0 e he
    obtain ⟨i, -, hx, -⟩ := (hrec e.1 e.2).mp he
    rw [hx]; exact h0 i

/-- C4 amended, at the end-to-end scenario: servers a and b, 1000 and 4000 bytes. -/
theorem evalLoop_one_entry_per_address_witness :
    (evalLoop sampleEnv "https://example.com" 2 "/tmp/17" ["a", "b"] 0
        ⟨[], [], []⟩ []).1.toOption.map (fun st => st.dnsSizeMap) =
      some [("a", 1000), ("b", 4000)] ∧
    ∃ st fs1, evalLoop sampleEnv "https://example.com" 2 "/tmp/17" ["a", "b"] 0
        ⟨[], [], []⟩ [] = (.ok st, fs1) ∧
      (st.dnsSizeMap.map Prod.fst).Nodup ∧
      (∀ a, a ∈ st.dnsSizeMap.map Prod.fst ↔ a ∈ ["a", "b"]) ∧
      st.dnsSizeMap.length = ["a", "b"].dedup.length ∧
      (["a", "b"].Nodup → st.dnsSizeMap.length = ["a", "b"].length) ∧
      (∀ a x, (a, x) ∈ st.dnsSizeMap ↔
        ∃ i, ["a", "b"][i]? = some a ∧ x = sampleEnv.bytesComplete i 0 ∧
          ∀ j, i < j → ["a", "b"][j]? ≠ some a) ∧
      ((∀ i, 0 ≤ sampleEnv.bytesComplete i 0) → ∀ e ∈ st.dnsSizeMap, 0 ≤ e.2) ∧
      ((∀ i, sampleEnv.bytesComplete i 0 = 0) → ∀ e ∈ st.dnsSizeMap, e.2 = 0) :=
  ⟨by rfl,
    evalLoop_one_entry_per_address sampleEnv "https://example.com" 2 "/tmp/17" ["a", "b"] []
      (by decide) (by decide)⟩

/-- C5, on the code: with a URL that `http.NewRequest` rejects, `CheckWithURL` over the two
configured servers does not return a result map: the first iteration logs the error and then
dereferences the nil request, so the call panics and no server is evaluated. -/
theorem CheckWithURL_unbuildable_request_panics :
    sampleEnv.buildable "://example.com" = false ∧
    (chooseServers sampleEnv "://example.com" false sampleFs).1 = .ok ["1.1.1.1", "8.8.8.8"] ∧
    CheckWithURL sampleEnv "://example.com" false 5 sampleFs =
      (.error (.panicked nilDereference), sampleFs) := by
  refine ⟨by decide, by rfl, by rfl⟩


/-! ## Scratch cleanup -/

/-- A file found at the scratch path before the run is outside what the run cleans up when the
request cannot be built: the panic of the first iteration comes before `os.RemoveAll`. -/
theorem CheckWithURL_panic_keeps_older_file :
    scratchPath sampleEnv = "/tmp/17" ∧
    CheckWithURL sampleEnv "://example.com" false 5 (("/tmp/17", .data 3) :: sampleFs) =
      (.error (.panicked nilDereference), ("/tmp/17", .data 3) :: sampleFs) := by
  refine ⟨by decide, by rfl⟩

/-- A file just written is what a lookup of its path finds. -/
theorem lookup_writeFile_self (fs : Fs) (q : String) (f : File) :
    (writeFile fs q f).lookup q = some f := by
  simp [writeFile, List.lookup_cons]

/-- Whenever `CheckAndCacheDNS` has cached a non-empty valid list and the home-based name that
`ReadDNSFromFile` builds denotes the file that was written, reading the cache back fails: the
file holds the key `validdnsservers` only. -/
theorem ReadDNSFromFile_of_cached (env : Env) (url : String) (fs fs1 : Fs)
    (valid : List String) (hhome : GetHomeDir env ≠ "")
    (hsame : resolve env (AddPathToDir env (GetHomeDir env) CHECKED_DNS_CONFIG_FILE) =
      resolve env CHECKED_DNS_CONFIG_FILE)
    (hrun : CheckAndCacheDNS env url fs = (.ok valid, fs1)) (hne : valid ≠ []) :
    ReadDNSFromFile env CHECKED_DNS_CONFIG_FILE fs1 =
      .error (.returned "no DNS servers found in config") := by
  have hkey : GetStringSlice [(lower "validDNSServers", valid)] "dnsServers" = [] := by
    have : ¬ lower (lower "validDNSServers") = lower "dnsServers" := by decide
    simp [GetStringSlice, this]
  unfold CheckAndCacheDNS at hrun
  split at hrun
  · simp at hrun
  · rename_i doc fs0 _
    simp only at hrun
    by_cases hlen0 : (GetStringSlice doc "dnsServers").length = 0
    · simp [hlen0] at hrun
    · rw [if_neg hlen0] at hrun
      by_cases hlen :
          (runProbes (env.completion (probeUnits (fun i dns => env.get i dns url)
            (GetStringSlice doc "dnsServers")))).length > 0
      · rw [if_pos hlen] at hrun
        unfold WriteConfig at hrun
        by_cases hw : env.writable (resolve env CHECKED_DNS_CONFIG_FILE) = true
        · simp only [hw, if_true] at hrun
          simp only [Prod.mk.injEq, Except.ok.injEq] at hrun
          obtain ⟨hv, hfs⟩ := hrun
          subst hfs
          subst hv
          simp only [ReadDNSFromFile, if_neg hhome, ReadInConfig, hsame, lookup_writeFile_self,
            hkey]
          simp
        · simp [hw, SafeWriteConfig] at hrun
      · rw [if_neg hlen] at hrun
        simp only [Prod.mk.injEq, Except.ok.injEq] at hrun
        obtain ⟨hv, -⟩ := hrun
        subst hv
        exact absurd (List.length_pos.mpr hne) hlen

/-- C8, on the code: one of the two configured servers is reachable and is cached under the key
`validdnsservers`; `ReadDNSFromFile` then looks the key `dnsServers` up in that file, finds
nothing, and `CheckWithURL` falls back to the full list of the downloaded DNS config. -/
theorem chooseServers_ignores_cache :
    CheckAndCacheDNS sampleEnv "https://example.com" sampleFs =
      (.ok ["1.1.1.1"],
        ("/home/u/.config/403unlocker/checked_dns.yml", .yaml [("validdnsservers", ["1.1.1.1"])])
          :: sampleFs) ∧
    ReadDNSFromFile sampleEnv CHECKED_DNS_CONFIG_FILE
        (CheckAndCacheDNS sampleEnv "https://example.com" sampleFs).2 =
      .error (.returned "no DNS servers found in config") ∧
    (chooseServers sampleEnv "https://example.com" true sampleFs).1 =
      .ok ["1.1.1.1", "8.8.8.8"] := by
  refine ⟨by rfl, by rfl, by rfl⟩


/-! ## The figure shown for a server and for the best one -/

/-- A reported best server has transferred something. -/
theorem selectBest_size_pos (order : List (String × Int)) (dns : String) (size : Int)
    (h : selectBest order = some (dns, size)) : 0 < size := by
  unfold selectBest at h
  by_cases hne : (scanBest order).1 ≠ ""
  · simp only [if_pos hne, Option.some.injEq] at h
    unfold scanBest at h hne
    rcases foldl_scanStep_spec order ("", 0) with ⟨heq, -⟩ | ⟨_, _, -, hlt, -, -⟩
    · rw [heq] at hne; exact absurd rfl hne
    · rw [h] at hlt; exact hlt
  · simp [if_neg hne] at h

/-- C10: with a timeout `t > 0`, the iteration of the loop for a server records the raw first
reading of `BytesComplete` in the map and prints a row whose speed cell is
`FormatDataSize (b / t)` followed by "/s", `b ≥ 0` being the second reading and the quotient
truncated; the whole evaluation hands the raw map to the scan, and the "Best DNS" line shows
`FormatDataSize (size / t)` for the raw count `size` the scan selected.  `FormatDataSize n` is
the decimal rendering of `n` and " Bytes" below 1024, and ends in " KB", " MB", " GB" on the
ranges delimited by 1024, 1024^2 and 1024^3; the unit never goes down when `n` grows; two
servers shown with the same figure are still told apart by the scan. -/
theorem throughput_display (env : Env) (url tempDir dns : String) (i : Nat) (st : LoopState)
    (fs : Fs) (dnsList : List String) (order : List (String × Int)) (best : String)
    (size t n k : Int) (hbuild : env.buildable url = true)
    (hb : 0 ≤ env.bytesComplete i 1) (ht : 0 < t) (hnk : n ≤ k)
    (hsel : selectBest order = some (best, size)) :
    attempt env url t tempDir i dns st fs =
        (.ok ⟨mapSet st.dnsSizeMap dns (env.bytesComplete i 0),
            st.stdout ++
              [if env.bytesComplete i 2 = 0 then
                "| " ++ padRight dns 18 ++ " | " ++ Red ++
                  padRight (FormatDataSize (env.bytesComplete i 1 / t) ++ "/s") 14 ++ Reset ++ " |"
              else
                "| " ++ padRight dns 18 ++ " | " ++
                  padRight (FormatDataSize (env.bytesComplete i 1 / t) ++ "/s") 14 ++ " |"],
            st.stderr⟩,
          Do env ⟨tempDir, url⟩ i fs) ∧
      (0 ≤ env.bytesComplete i 1 / t ∧ t * (env.bytesComplete i 1 / t) ≤ env.bytesComplete i 1 ∧
        env.bytesComplete i 1 < t * (env.bytesComplete i 1 / t + 1)) ∧
      (∃ st1 fs1, evalLoop env url t (scratchPath env) dnsList 0 ⟨[], [], []⟩ fs = (.ok st1, fs1) ∧
        (evaluate env url t dnsList fs).1 =
          .ok ⟨st1.dnsSizeMap, st1.stdout, bestLine t (env.iteration st1.dnsSizeMap)⟩) ∧
      bestLine t order =
        "Best DNS: " ++ Green ++ best ++ Reset ++ " (" ++ Green ++ FormatDataSize (size / t)
          ++ "/s" ++ Reset ++ ")" ∧
      (n < 1024 → FormatDataSize n = toString n ++ " Bytes") ∧
      (1024 ≤ n → n < 1024 ^ 2 → endsWith (FormatDataSize n) " KB" = true) ∧
      (1024 ^ 2 ≤ n → n < 1024 ^ 3 → endsWith (FormatDataSize n) " MB" = true) ∧
      (1024 ^ 3 ≤ n → endsWith (FormatDataSize n) " GB" = true) ∧
      unitRank (FormatDataSize n) ≤ unitRank (FormatDataSize k) ∧
      (speedCell 1000 2 = speedCell 1001 2 ∧
        selectBest [("a", 1000), ("b", 1001)] = some ("b", 1001) ∧
        selectBest [("b", 1001), ("a", 1000)] = some ("b", 1001)) := by
  have hkb : kb = 1024 := rfl
  have hmb : mb = 1024 ^ 2 := by decide
  have hgb : gb = 1024 ^ 3 := by decide
  have ht0 : t ≠ 0 := ne_of_gt ht
  refine ⟨?_, ⟨?_, ?_, ?_⟩, ?_, ?_, ?_, ?_, ?_, ?_, ?_, ?_⟩
  · simp only [attempt, NewRequest, hbuild, if_true, WithContext, Option.isNone_some,
      Bool.false_eq_true, if_false, if_neg ht0, speedCell, Int.tdiv_eq_ediv hb (le_of_lt ht)]
  · exact Int.ediv_nonneg hb (le_of_lt ht)
  · exact Int.mul_ediv_self_le ht0
  · have h := Int.lt_mul_ediv_self_add (x := env.bytesComplete i 1) ht
    rw [mul_add, mul_one]
    exact h
  · obtain ⟨st1, fs1, hloop, -⟩ :=
      evalLoop_records env url t (scratchPath env) hbuild ht0 dnsList [] ⟨[], [], []⟩ fs
        (by simp) (by simp)
    simp only [List.length_nil] at hloop
    exact ⟨st1, fs1, hloop, by simp [evaluate, hloop]⟩
  · have hpos := selectBest_size_pos order best size hsel
    simp only [bestLine, hsel, Int.tdiv_eq_ediv (le_of_lt hpos) (le_of_lt ht)]
  · intro h
    have h1 : ¬ n ≥ gb := by rw [hgb]; omega
    have h2 : ¬ n ≥ mb := by rw [hmb]; omega
    have h3 : ¬ n ≥ kb := by rw [hkb]; omega
    simp [FormatDataSize, h1, h2, h3]
  · intro h h'
    have h1 : ¬ n ≥ gb := by rw [hgb]; omega
    have h2 : ¬ n ≥ mb := by rw [hmb]; omega
    have h3 : n ≥ kb := by rw [hkb]; omega
    simp only [FormatDataSize, if_neg h1, if_neg h2, if_pos h3]
    rw [endsWith_append _ " KB" " KB" (by decide)]
    decide
  · intro h h'
    have h1 : ¬ n ≥ gb := by rw [hgb]; omega
    have h2 : n ≥ mb := by rw [hmb]; omega
    simp only [FormatDataSize, if_neg h1, if_pos h2]
    rw [endsWith_append _ " MB" " MB" (by decide)]
    decide
  · intro h
    have h1 : n ≥ gb := by rw [hgb]; omega
    simp only [FormatDataSize, if_pos h1]
    rw [endsWith_append _ " GB" " GB" (by decide)]
    decide
  · rw [unitRank_FormatDataSize, unitRank_FormatDataSize, hkb, hmb, hgb]
    split_ifs <;> omega
  · decide

/-- C10 at the end-to-end scenario: server b, second of two, 4000 bytes in 2 seconds. -/
theorem throughput_display_witness :
    (attempt sampleEnv "https://example.com" 2 "/tmp/17" 1 "b" ⟨[("a", 1000)], [], []⟩
        []).1.toOption.map (fun s => (s.dnsSizeMap, s.stdout)) =
      some ([("a", 1000), ("b", 4000)], ["| b                  | 1.95 KB/s      |"]) ∧
    bestLine 2 [("a", 1000), ("b", 4000)] = "Best DNS: \x1b[32mb\x1b[0m (\x1b[32m1.95 KB/s\x1b[0m)" ∧
    FormatDataSize 1023 = "1023 Bytes" ∧ FormatDataSize 1024 = "1.00 KB" ∧
    FormatDataSize (3 * 1024 ^ 2) = "3.00 MB" ∧
    attempt sampleEnv "https://example.com" 2 "/tmp/17" 1 "b" ⟨[("a", 1000)], [], []⟩ [] =
      (.ok ⟨mapSet [("a", 1000)] "b" (sampleEnv.bytesComplete 1 0),
          [] ++
            [if sampleEnv.bytesComplete 1 2 = 0 then
              "| " ++ padRight "b" 18 ++ " | " ++ Red ++
                padRight (FormatDataSize (sampleEnv.bytesComplete 1 1 / 2) ++ "/s") 14 ++ Reset
                ++ " |"
            else
              "| " ++ padRight "b" 18 ++ " | " ++
                padRight (FormatDataSize (sampleEnv.bytesComplete 1 1 / 2) ++ "/s") 14 ++ " |"],
          []⟩,
        Do sampleEnv ⟨"/tmp/17", "https://example.com"⟩ 1 []) ∧
    bestLine 2 [("a", 1000), ("b", 4000)] =
      "Best DNS: " ++ Green ++ "b" ++ Reset ++ " (" ++ Green ++ FormatDataSize (4000 / 2)
        ++ "/s" ++ Reset ++ ")" ∧
    unitRank (FormatDataSize 2000) ≤ unitRank (FormatDataSize (3 * 1024 ^ 2)) :=
  have h := throughput_display sampleEnv "https://example.com" "/tmp/17" "b" 1
    ⟨[("a", 1000)], [], []⟩ [] ["a", "b"] [("a", 1000), ("b", 4000)] "b" 4000 2 2000
    (3 * 1024 ^ 2) (by decide) (by decide) (by decide) (by decide) (by decide)
  ⟨by rfl, by decide, by decide, by decide, by decide, h.1, h.2.2.2.1, h.2.2.2.2.2.2.2.2.1⟩

end Unlocker
